import Mathlib

/-!
# Verification of the wager settlement and balance-integrity core

Shallow embedding of the settlement core of a points-based sports wagering
tracker (a Next.js app backed by Prisma/Postgres).  The embedded operations
are translated from:

* `src/app/api/wagers/route.ts` (`POST` = `placeWager`),
* `src/app/api/wagers/[id]/mark-result/route.ts` (`POST` = `settleWager`,
  and the `calculatePayout` helper),
* `src/app/api/users/route.ts` (`POST` = user creation),
* the Prisma migrations (table shapes, enums, foreign keys).

JavaScript arithmetic on `number` is modelled by exact rationals extended
with signed infinities and NaN (`JSNum`); division by zero follows the IEEE
rules JavaScript uses.  The database is a record of lists of rows; a Prisma
`$transaction` that throws is modelled by returning the *unchanged* database
together with the error (all-or-nothing rollback).
-/

namespace SportsBetting

/-! ## JavaScript numbers (exact-rational idealization) -/

/-- A JavaScript `number`, idealized: a finite value is an exact rational;
division by zero produces signed infinities or NaN as in IEEE-754. -/
inductive JSNum where
  | fin (q : ℚ)
  | posInf
  | negInf
  | nan
deriving DecidableEq, Repr

/-- JavaScript `/` on (idealized) numbers: finite quotients are exact,
`a / 0` is `±Infinity` for `a ≠ 0` and `NaN` for `a = 0`. -/
def jsDiv (a b : ℚ) : JSNum :=
  if b = 0 then
    if 0 < a then JSNum.posInf else if a < 0 then JSNum.negInf else JSNum.nan
  else
    JSNum.fin (a / b)

/-- JavaScript `+` of a (possibly non-finite) number and a finite number. -/
def JSNum.add (x : JSNum) (q : ℚ) : JSNum :=
  match x with
  | JSNum.fin a => JSNum.fin (a + q)
  | x => x

/-- JavaScript `Math.round`: for a finite value, the closest integer, ties
toward positive infinity, i.e. `⌊x + 1/2⌋`; infinities and NaN pass through.
(`Rat.floor` is used so that the function evaluates by kernel reduction;
`ratFloor_eq` below identifies it with `Int.floor`.) -/
def mathRound (x : JSNum) : JSNum :=
  match x with
  | JSNum.fin q => JSNum.fin (((q + 1/2).floor : ℤ) : ℚ)
  | x => x

/-- The integer value of a JavaScript number, when it is a finite integer;
`none` for fractional values, infinities and NaN.  A Prisma `Int` column
rejects any amount for which this is `none`. -/
def JSNum.toInt? : JSNum → Option ℤ
  | JSNum.fin q => if q.den = 1 then some q.num else none
  | _ => none

/-! ## The payout calculator

Translated from `calculatePayout` in
`src/app/api/wagers/[id]/mark-result/route.ts`:

```
function calculatePayout(stakeCents: number, americanOdds: number): number {
  if (americanOdds > 0) {
    return Math.round((stakeCents * americanOdds) / 100 + stakeCents);
  } else {
    return Math.round((stakeCents * 100) / Math.abs(americanOdds) + stakeCents);
  }
}
```
-/

/-- `calculatePayout`, translated literally from the source.  Note the
`else` branch also receives `americanOdds = 0`, where `Math.abs(0) = 0`
and the division blows up to a non-finite value. -/
def calculatePayout (stakeCents americanOdds : ℤ) : JSNum :=
  if americanOdds > 0 then
    mathRound ((jsDiv ((stakeCents * americanOdds : ℤ) : ℚ) 100).add (stakeCents : ℚ))
  else
    mathRound ((jsDiv ((stakeCents * 100 : ℤ) : ℚ) |((americanOdds : ℤ) : ℚ)|).add (stakeCents : ℚ))

/-- The payout as a plain integer, defined for nonzero odds (where the
source computation is finite): code-shaped closed form. -/
def payoutFin (stakeCents americanOdds : ℤ) : ℤ :=
  if americanOdds > 0 then
    ⌊((stakeCents * americanOdds : ℤ) : ℚ) / 100 + (stakeCents : ℚ) + 1/2⌋
  else
    ⌊((stakeCents * 100 : ℤ) : ℚ) / |((americanOdds : ℤ) : ℚ)| + (stakeCents : ℚ) + 1/2⌋

/-- Round-half-up to the nearest integer, as the specification prescribes
for the payout calculator. -/
def roundHalfUp (q : ℚ) : ℤ := ⌊q + 1/2⌋

/-- `specPayout` follows the specification text for §4.2 (not the source):
"If `americanOdds > 0`: payout = round(stake × odds / 100) + stake.
If `americanOdds <= 0`: payout = round(stake × 100 / |odds|) + stake.
Rounding: round-half-up to nearest integer cent."  It is the comparison
point for the refinement claim about `calculatePayout`. -/
def specPayout (stakeCents americanOdds : ℤ) : ℤ :=
  if americanOdds > 0 then
    roundHalfUp ((stakeCents * americanOdds : ℚ) / 100) + stakeCents
  else
    roundHalfUp ((stakeCents * 100 : ℚ) / |(americanOdds : ℚ)|) + stakeCents

/-! ## Data model

Rows, as shaped by the Prisma migrations (`migrations/..._init/migration.sql`
and the ledger migration): enums `EventStatus`, `WagerStatus`, `LedgerType`,
tables `User`, `League`, `Event`, `Market`, `Line`, `Wager`, `LedgerEntry`.
Timestamps are epoch milliseconds (`ℤ`), `DECIMAL` columns are `ℚ`.
`Market.type` and `Line.selectionKey` are kept as strings (the routes only
ever pass them through into description strings). -/

inductive EventStatus where
  | SCHEDULED
  | LIVE
  | FINAL
deriving DecidableEq, Repr

inductive WagerStatus where
  | PENDING
  | WON
  | LOST
  | PUSH
  | VOID
deriving DecidableEq, Repr

inductive LedgerType where
  | WAGER_STAKE
  | WAGER_PAYOUT
  | WAGER_REFUND
  | DEPOSIT
  | WITHDRAWAL
deriving DecidableEq, Repr

/-- The four admissible values of the `result` field of a mark-result
request (the Zod enum `["WON", "LOST", "PUSH", "VOID"]`). -/
inductive Outcome where
  | WON
  | LOST
  | PUSH
  | VOID
deriving DecidableEq, Repr

/-- The wager status written by `tx.wager.update({data: {status: result}})`. -/
def Outcome.toStatus : Outcome → WagerStatus
  | Outcome.WON => WagerStatus.WON
  | Outcome.LOST => WagerStatus.LOST
  | Outcome.PUSH => WagerStatus.PUSH
  | Outcome.VOID => WagerStatus.VOID

structure User where
  id : String
  email : String
  displayName : String
  balanceCents : ℤ
deriving DecidableEq, Repr

structure League where
  id : String
  name : String
deriving DecidableEq, Repr

structure Event where
  id : String
  leagueId : String
  homeTeam : String
  awayTeam : String
  startsAt : ℤ
  status : EventStatus
deriving DecidableEq, Repr

structure Market where
  id : String
  eventId : String
  type : String
deriving DecidableEq, Repr

structure Line where
  id : String
  marketId : String
  selectionKey : String
  point : Option ℚ
  price : ℤ
  source : String
  capturedAt : ℤ
deriving DecidableEq, Repr

structure Wager where
  id : String
  userId : String
  lineId : String
  stakeCents : ℤ
  acceptedPoint : Option ℚ
  acceptedPrice : ℤ
  placedAt : ℤ
  status : WagerStatus
deriving DecidableEq, Repr

structure LedgerEntry where
  id : String
  userId : String
  wagerId : Option String
  type : LedgerType
  amountCents : ℤ
  description : String
  createdAt : ℤ
deriving DecidableEq, Repr

/-- The database: one list of rows per table. -/
structure DB where
  users : List User
  leagues : List League
  events : List Event
  markets : List Market
  lines : List Line
  wagers : List Wager
  ledgerEntries : List LedgerEntry
deriving DecidableEq, Repr

/-! ## The ledger-balance invariant (spec §4.4) -/

/-- Sum of the `amountCents` of the entries owned by `uid`. -/
def sumFor (l : List LedgerEntry) (uid : String) : ℤ :=
  ((l.filter (fun e => e.userId == uid)).map (fun e => e.amountCents)).sum

/-- Sum of `amountCents` over a user's ledger entries. -/
def DB.ledgerSum (db : DB) (uid : String) : ℤ :=
  sumFor db.ledgerEntries uid

/-- The ledger-balance equality invariant: every user's cached balance
equals the sum of their ledger entries. -/
def DB.balancedLedger (db : DB) : Prop :=
  ∀ u ∈ db.users, u.balanceCents = db.ledgerSum u.id

instance (db : DB) : Decidable db.balancedLedger :=
  inferInstanceAs (Decidable (∀ u ∈ db.users, u.balanceCents = db.ledgerSum u.id))

/-! ## Errors

The error kinds surfaced by the two routes (each `throw` inside the
transaction maps to one kind; `dbError` stands for an error raised by the
store itself — a violated foreign key, a missing row in `update`, or a
non-integer value written to an `Int` column). -/

inductive ApiError where
  | invalidRequest
  | lineNotFound
  | bettingClosed
  | userNotFound
  | insufficientBalance
  | wagerNotFound
  | alreadySettled (st : WagerStatus)
  | dbError
deriving DecidableEq, Repr

/-! ## placeWager

Translated from `POST` in `src/app/api/wagers/route.ts`.  The Prisma
`$transaction` is all-or-nothing: every failure returns the *original*
database together with the error.  The fresh row ids (in the store:
generated uuids) are passed in as `wagerId`/`entryId`. -/

/-- The default user id hard-coded in the route for requests that carry no
user id (`userId || "00000000-0000-0000-0000-000000000000"`). -/
def defaultUserId : String := "00000000-0000-0000-0000-000000000000"

/-- The request body after merging the `x-user-id` header, as validated by
`createWagerSchema` (`lineId: string`, `stakeCents: int ≥ 1`,
`userId: string optional`). -/
structure CreateWagerRequest where
  lineId : String
  stakeCents : ℤ
  userId : Option String
deriving DecidableEq, Repr

/-- The user-existence and balance checks, which the route performs only
`if (userId)`. -/
def userPrecheck (db : DB) (req : CreateWagerRequest) : Option ApiError :=
  match req.userId with
  | none => none
  | some uid =>
    match db.users.find? (fun u => u.id == uid) with
    | none => some ApiError.userNotFound
    | some user =>
      if user.balanceCents < req.stakeCents then some ApiError.insufficientBalance else none

/-- The `PENDING` wager row created by `tx.wager.create`: stake from the
request, `acceptedPoint`/`acceptedPrice` copied from the line at this
instant, owner defaulted when the request carries no user id. -/
def placedWagerOf (req : CreateWagerRequest) (now : ℤ) (wagerId : String) (line : Line) : Wager :=
  { id := wagerId, userId := req.userId.getD defaultUserId, lineId := req.lineId,
    stakeCents := req.stakeCents, acceptedPoint := line.point,
    acceptedPrice := line.price, placedAt := now, status := WagerStatus.PENDING }

/-- The `WAGER_STAKE` ledger entry created by `tx.ledgerEntry.create`:
amount `-stakeCents`. -/
def stakeEntryOf (req : CreateWagerRequest) (now : ℤ) (wagerId entryId : String)
    (line : Line) (market : Market) (event : Event) : LedgerEntry :=
  { id := entryId, userId := req.userId.getD defaultUserId, wagerId := some wagerId,
    type := LedgerType.WAGER_STAKE, amountCents := -req.stakeCents,
    description := "Wager stake for " ++ event.homeTeam ++ " vs " ++ event.awayTeam
      ++ " - " ++ market.type ++ " " ++ line.selectionKey,
    createdAt := now }

/-- The side-effect part of the transaction, after all checks passed:
create the `PENDING` wager with the price/point copied from the line,
append the `WAGER_STAKE` entry of `-stakeCents`, and — only when a
`userId` was supplied — decrement that user's balance. -/
def placeAccept (db : DB) (now : ℤ) (req : CreateWagerRequest)
    (wagerId entryId : String) (line : Line) (market : Market) (event : Event) :
    DB × Except ApiError Wager :=
  -- Foreign key `Wager.userId → User.id` (init migration): the insert
  -- fails, rolling back the transaction, unless the user row exists.
  if db.users.any (fun u => u.id == req.userId.getD defaultUserId) = false then
    (db, Except.error ApiError.dbError)
  else
    match req.userId with
    | some uid =>
      ({ db with
          wagers := db.wagers ++ [placedWagerOf req now wagerId line],
          ledgerEntries := db.ledgerEntries ++ [stakeEntryOf req now wagerId entryId line market event],
          users := db.users.map (fun u =>
            if u.id == uid then { u with balanceCents := u.balanceCents - req.stakeCents } else u) },
        Except.ok (placedWagerOf req now wagerId line))
    | none =>
      ({ db with
          wagers := db.wagers ++ [placedWagerOf req now wagerId line],
          ledgerEntries := db.ledgerEntries ++ [stakeEntryOf req now wagerId entryId line market event] },
        Except.ok (placedWagerOf req now wagerId line))

/-- `placeWager`: validation, then the transaction of
`src/app/api/wagers/route.ts`. -/
def placeWager (db : DB) (now : ℤ) (req : CreateWagerRequest)
    (wagerId entryId : String) : DB × Except ApiError Wager :=
  if req.stakeCents < 1 then (db, Except.error ApiError.invalidRequest)
  else
    match db.lines.find? (fun l => l.id == req.lineId) with
    | none => (db, Except.error ApiError.lineNotFound)
    | some line =>
      match db.markets.find? (fun m => m.id == line.marketId) with
      | none => (db, Except.error ApiError.dbError)
      | some market =>
        match db.events.find? (fun e => e.id == market.eventId) with
        | none => (db, Except.error ApiError.dbError)
        | some event =>
          if event.status ≠ EventStatus.SCHEDULED then (db, Except.error ApiError.bettingClosed)
          else if ((event.startsAt - now : ℤ) : ℚ) / (1000 * 60) < 5 then
            (db, Except.error ApiError.bettingClosed)
          else
            match userPrecheck db req with
            | some e => (db, Except.error e)
            | none => placeAccept db now req wagerId entryId line market event

/-! ## settleWager

Translated from `POST` in `src/app/api/wagers/[id]/mark-result/route.ts`. -/

/-- `tx.user.update({where: {id: uid}, data: {balanceCents: {increment: δ}}})`:
`none` models the store raising "record not found" when no such user row
exists; otherwise the matching row's balance is incremented. -/
def applyBalanceChange (users : List User) (uid : String) (δ : ℤ) : Option (List User) :=
  if users.any (fun u => u.id == uid) then
    some (users.map (fun u =>
      if u.id == uid then { u with balanceCents := u.balanceCents + δ } else u))
  else none

/-- The tail of the settlement transaction: `if (balanceChange > 0)` update
the owner's balance.  `db0` is the pre-transaction state to roll back to;
`dbNew` carries the status update and any appended ledger entry. -/
def finishSettle (db0 dbNew : DB) (wager : Wager) (entry : Option LedgerEntry)
    (balanceChange : ℤ) : DB × Except ApiError (Wager × Option LedgerEntry × ℤ) :=
  if 0 < balanceChange then
    match applyBalanceChange dbNew.users wager.userId balanceChange with
    | none => (db0, Except.error ApiError.dbError)
    | some users1 => ({ dbNew with users := users1 }, Except.ok (wager, entry, balanceChange))
  else (dbNew, Except.ok (wager, entry, balanceChange))

/-- `tx.wager.update({where: {id}, data: {status}})`: the rows matching
the (unique) id get the new status. -/
def statusUpdate (l : List Wager) (tid : String) (st : WagerStatus) : List Wager :=
  l.map (fun w => if w.id == tid then { w with status := st } else w)

/-- The `WAGER_PAYOUT` ledger entry created for a `WON` settlement. -/
def payoutEntryOf (wager : Wager) (entryId : String) (now : ℤ) (payoutCents : ℤ) : LedgerEntry :=
  { id := entryId, userId := wager.userId, wagerId := some wager.id,
    type := LedgerType.WAGER_PAYOUT, amountCents := payoutCents,
    description := "Payout for winning wager " ++ wager.id, createdAt := now }

/-- The `WAGER_REFUND` ledger entry created for a `PUSH`/`VOID`
settlement; `word` is "pushed" or "voided". -/
def refundEntryOf (wager : Wager) (entryId : String) (now : ℤ) (word : String) : LedgerEntry :=
  { id := entryId, userId := wager.userId, wagerId := some wager.id,
    type := LedgerType.WAGER_REFUND, amountCents := wager.stakeCents,
    description := "Refund for " ++ word ++ " wager " ++ wager.id, createdAt := now }

/-- `settleWager`: fetch the wager, reject non-`PENDING` status with the
already-settled error (carrying the existing status), update the status,
then create the outcome's ledger entry and balance change.  A `WON` payout
that is not a finite integer (odds 0) cannot be written to the `Int`
amount column and aborts the transaction. -/
def settleWager (db : DB) (now : ℤ) (wagerId : String) (result : Outcome)
    (entryId : String) : DB × Except ApiError (Wager × Option LedgerEntry × ℤ) :=
  match db.wagers.find? (fun w => w.id == wagerId) with
  | none => (db, Except.error ApiError.wagerNotFound)
  | some existingWager =>
    if existingWager.status ≠ WagerStatus.PENDING then
      (db, Except.error (ApiError.alreadySettled existingWager.status))
    else
      -- `wager` below abbreviates the row returned by the status update:
      -- `{ existingWager with status := result.toStatus }` (same stake,
      -- price and owner as the fetched row).
      match result with
      | Outcome.WON =>
        match (calculatePayout existingWager.stakeCents existingWager.acceptedPrice).toInt? with
        | none => (db, Except.error ApiError.dbError)
        | some payoutCents =>
          finishSettle db
            { db with
                wagers := statusUpdate db.wagers existingWager.id Outcome.WON.toStatus,
                ledgerEntries := db.ledgerEntries
                  ++ [payoutEntryOf { existingWager with status := Outcome.WON.toStatus } entryId now payoutCents] }
            { existingWager with status := Outcome.WON.toStatus }
            (some (payoutEntryOf { existingWager with status := Outcome.WON.toStatus } entryId now payoutCents))
            payoutCents
      | Outcome.PUSH =>
        finishSettle db
          { db with
              wagers := statusUpdate db.wagers existingWager.id Outcome.PUSH.toStatus,
              ledgerEntries := db.ledgerEntries
                ++ [refundEntryOf { existingWager with status := Outcome.PUSH.toStatus } entryId now "pushed"] }
          { existingWager with status := Outcome.PUSH.toStatus }
          (some (refundEntryOf { existingWager with status := Outcome.PUSH.toStatus } entryId now "pushed"))
          existingWager.stakeCents
      | Outcome.VOID =>
        finishSettle db
          { db with
              wagers := statusUpdate db.wagers existingWager.id Outcome.VOID.toStatus,
              ledgerEntries := db.ledgerEntries
                ++ [refundEntryOf { existingWager with status := Outcome.VOID.toStatus } entryId now "voided"] }
          { existingWager with status := Outcome.VOID.toStatus }
          (some (refundEntryOf { existingWager with status := Outcome.VOID.toStatus } entryId now "voided"))
          existingWager.stakeCents
      | Outcome.LOST =>
        ({ db with wagers := statusUpdate db.wagers existingWager.id Outcome.LOST.toStatus },
          Except.ok ({ existingWager with status := Outcome.LOST.toStatus }, none, 0))

/-! ## createUser

Translated from `POST` in `src/app/api/users/route.ts`: validate with
`createUserSchema` (`displayName: 1..100 chars`,
`balanceCents: int ≥ 0 optional`), then create the user with
`balanceCents ?? 10000` and a random unique email; no ledger entry is
written. -/

structure CreateUserRequest where
  displayName : String
  balanceCents : Option ℤ
deriving DecidableEq, Repr

def createUser (db : DB) (req : CreateUserRequest) (newId newEmail : String) :
    DB × Except ApiError User :=
  if req.displayName.length < 1 then (db, Except.error ApiError.invalidRequest)
  else if req.displayName.length > 100 then (db, Except.error ApiError.invalidRequest)
  else if (match req.balanceCents with | some b => decide (b < 0) | none => false) then
    (db, Except.error ApiError.invalidRequest)
  else if db.users.any (fun u => u.email == newEmail) then
    -- unique constraint on `User.email`
    (db, Except.error ApiError.dbError)
  else
    let user : User :=
      { id := newId, email := newEmail, displayName := req.displayName,
        balanceCents := req.balanceCents.getD 10000 }
    ({ db with users := db.users ++ [user] }, Except.ok user)

/-! ## Expected settlement effects (used to state theorems) -/

/-- The balance change a settlement applies: the payout for `WON`, the
stake for `PUSH`/`VOID`, nothing for `LOST`. -/
def settleDelta (w : Wager) (o : Outcome) : ℤ :=
  match o with
  | Outcome.WON => ((calculatePayout w.stakeCents w.acceptedPrice).toInt?).getD 0
  | Outcome.PUSH => w.stakeCents
  | Outcome.VOID => w.stakeCents
  | Outcome.LOST => 0

/-- The ledger entries a successful settlement appends. -/
def settleEntries (w : Wager) (o : Outcome) (eid : String) (now : ℤ) : List LedgerEntry :=
  match o with
  | Outcome.WON =>
    match (calculatePayout w.stakeCents w.acceptedPrice).toInt? with
    | some p => [payoutEntryOf { w with status := Outcome.WON.toStatus } eid now p]
    | none => []
  | Outcome.PUSH => [refundEntryOf { w with status := Outcome.PUSH.toStatus } eid now "pushed"]
  | Outcome.VOID => [refundEntryOf { w with status := Outcome.VOID.toStatus } eid now "voided"]
  | Outcome.LOST => []

/-- The database state a successful settlement produces. -/
def settledState (db : DB) (w : Wager) (o : Outcome) (eid : String) (now : ℤ) : DB :=
  { db with
      wagers := statusUpdate db.wagers w.id o.toStatus,
      ledgerEntries := db.ledgerEntries ++ settleEntries w o eid now,
      users := if 0 < settleDelta w o then
          db.users.map (fun u =>
            if u.id == w.userId then { u with balanceCents := u.balanceCents + settleDelta w o } else u)
        else db.users }

/-! ## Settlement-entry counting (for the at-most-once guarantee) -/

/-- Is `e` a payout-credit or refund-credit entry for wager `wid`? -/
def isSettlementEntry (e : LedgerEntry) (wid : String) : Bool :=
  e.wagerId == some wid &&
    (match e.type with
     | LedgerType.WAGER_PAYOUT => true
     | LedgerType.WAGER_REFUND => true
     | _ => false)

/-- Number of payout/refund entries recorded for wager `wid`. -/
def settlementCount (db : DB) (wid : String) : ℕ :=
  (db.ledgerEntries.filter (fun e => isSettlementEntry e wid)).length

/-- A sequence of settlement calls, keeping only the resulting state. -/
def settleMany (db : DB) (calls : List (ℤ × String × Outcome × String)) : DB :=
  calls.foldl (fun d c => (settleWager d c.1 c.2.1 c.2.2.1 c.2.2.2).1) db

/-! ## Concrete scenario data -/

def demoEvent : Event :=
  { id := "E1", leagueId := "LG1", homeTeam := "LAL", awayTeam := "BOS",
    startsAt := 3600000, status := EventStatus.SCHEDULED }

def demoMarket : Market := { id := "M1", eventId := "E1", type := "SPREAD" }

def demoLine : Line :=
  { id := "L1", marketId := "M1", selectionKey := "HOME", point := none,
    price := -110, source := "mock", capturedAt := 0 }

def defaultUserRow : User :=
  { id := defaultUserId, email := "default@example.com", displayName := "Default",
    balanceCents := 0 }

def dbNoUser : DB :=
  { users := [defaultUserRow], leagues := [], events := [demoEvent],
    markets := [demoMarket], lines := [demoLine], wagers := [], ledgerEntries := [] }

def aliceRow : User :=
  { id := "U1", email := "alice@example.com", displayName := "Alice",
    balanceCents := 20000 }

def dbScenario : DB :=
  { users := [aliceRow], leagues := [], events := [demoEvent],
    markets := [demoMarket], lines := [demoLine], wagers := [], ledgerEntries := [] }

def scenarioReq : CreateWagerRequest :=
  { lineId := "L1", stakeCents := 5000, userId := some "U1" }

def bobRow : User :=
  { id := "U2", email := "bob@example.com", displayName := "Bob", balanceCents := 10000 }

def bobDeposit : LedgerEntry :=
  { id := "LD1", userId := "U2", wagerId := none, type := LedgerType.DEPOSIT,
    amountCents := 10000, description := "initial deposit", createdAt := 0 }

/-- A database satisfying the ledger-balance invariant. -/
def dbBalanced : DB :=
  { users := [bobRow], leagues := [], events := [demoEvent],
    markets := [demoMarket], lines := [demoLine], wagers := [],
    ledgerEntries := [bobDeposit] }

def settledWagerRow : Wager :=
  { id := "W9", userId := "U2", lineId := "L1", stakeCents := 1000,
    acceptedPoint := none, acceptedPrice := -110, placedAt := 0,
    status := WagerStatus.WON }

def dbSettledWager : DB :=
  { users := [bobRow], leagues := [], events := [demoEvent],
    markets := [demoMarket], lines := [demoLine], wagers := [settledWagerRow],
    ledgerEntries := [bobDeposit] }

def pendingWagerRow : Wager :=
  { id := "W5", userId := "U2", lineId := "L1", stakeCents := 1000,
    acceptedPoint := none, acceptedPrice := -110, placedAt := 0,
    status := WagerStatus.PENDING }

def dbPendingWager : DB :=
  { users := [bobRow], leagues := [], events := [demoEvent],
    markets := [demoMarket], lines := [demoLine], wagers := [pendingWagerRow],
    ledgerEntries := [bobDeposit] }

def boundaryEvent : Event :=
  { id := "E2", leagueId := "LG1", homeTeam := "NYK", awayTeam := "MIA",
    startsAt := 300000, status := EventStatus.SCHEDULED }

def boundaryMarket : Market := { id := "M2", eventId := "E2", type := "MONEYLINE" }

def boundaryLine : Line :=
  { id := "L2", marketId := "M2", selectionKey := "HOME", point := none,
    price := 150, source := "mock", capturedAt := 0 }

def dbBoundary : DB :=
  { users := [bobRow], leagues := [], events := [boundaryEvent],
    markets := [boundaryMarket], lines := [boundaryLine], wagers := [],
    ledgerEntries := [bobDeposit] }

def boundaryReq : CreateWagerRequest :=
  { lineId := "L2", stakeCents := 500, userId := some "U2" }

def event4 : Event :=
  { id := "E4", leagueId := "LG1", homeTeam := "GSW", awayTeam := "PHX",
    startsAt := 240000, status := EventStatus.SCHEDULED }

def market4 : Market := { id := "M4", eventId := "E4", type := "SPREAD" }

def line4 : Line :=
  { id := "L4", marketId := "M4", selectionKey := "AWAY", point := none,
    price := -110, source := "mock", capturedAt := 0 }

def db4min : DB :=
  { users := [bobRow], leagues := [], events := [event4],
    markets := [market4], lines := [line4], wagers := [], ledgerEntries := [bobDeposit] }

def req4 : CreateWagerRequest :=
  { lineId := "L4", stakeCents := 500, userId := some "U2" }

def event6 : Event :=
  { id := "E6", leagueId := "LG1", homeTeam := "DEN", awayTeam := "DAL",
    startsAt := 360000, status := EventStatus.SCHEDULED }

def market6 : Market := { id := "M6", eventId := "E6", type := "SPREAD" }

def line6 : Line :=
  { id := "L6", marketId := "M6", selectionKey := "HOME", point := none,
    price := -110, source := "mock", capturedAt := 0 }

def db6min : DB :=
  { users := [bobRow], leagues := [], events := [event6],
    markets := [market6], lines := [line6], wagers := [], ledgerEntries := [bobDeposit] }

def req6 : CreateWagerRequest :=
  { lineId := "L6", stakeCents := 500, userId := some "U2" }

/-! ## Theorems -/

theorem ratFloor_eq (q : ℚ) : q.floor = ⌊q⌋ :=
  (Rat.floor_def' q).trans Rat.floor_def.symm

theorem mathRound_fin (q : ℚ) :
    mathRound (JSNum.fin q) = JSNum.fin ((⌊q + 1/2⌋ : ℤ) : ℚ) := by
  rw [mathRound, ratFloor_eq]

theorem calculatePayout_fin (stakeCents americanOdds : ℤ) (h : americanOdds ≠ 0) :
    calculatePayout stakeCents americanOdds = JSNum.fin ((payoutFin stakeCents americanOdds : ℤ) : ℚ) := by
  unfold calculatePayout payoutFin
  by_cases hpos : americanOdds > 0
  · rw [if_pos hpos, if_pos hpos]
    rw [jsDiv, if_neg (by norm_num : ¬(100 : ℚ) = 0)]
    simp only [JSNum.add]
    rw [mathRound_fin]
  · rw [if_neg hpos, if_neg hpos]
    have habs : ¬|((americanOdds : ℤ) : ℚ)| = 0 := by
      simp only [abs_eq_zero, Int.cast_eq_zero]
      exact h
    rw [jsDiv, if_neg habs]
    simp only [JSNum.add]
    rw [mathRound_fin]

theorem calculatePayout_toInt (stakeCents americanOdds : ℤ) (h : americanOdds ≠ 0) :
    (calculatePayout stakeCents americanOdds).toInt? = some (payoutFin stakeCents americanOdds) := by
  rw [calculatePayout_fin stakeCents americanOdds h]
  simp [JSNum.toInt?]

theorem toInt_some_odds_ne_zero (stakeCents americanOdds p : ℤ)
    (h : (calculatePayout stakeCents americanOdds).toInt? = some p) :
    americanOdds ≠ 0 ∧ p = payoutFin stakeCents americanOdds := by
  by_cases hz : americanOdds = 0
  · subst hz
    exfalso
    unfold calculatePayout at h
    rw [if_neg (by norm_num : ¬(0 : ℤ) > 0)] at h
    rw [jsDiv, if_pos (by simp)] at h
    rcases lt_trichotomy stakeCents 0 with hc | hc | hc
    · rw [if_neg (by rw [Int.cast_pos]; omega), if_pos (by rw [Int.cast_lt_zero]; omega)] at h
      simp [JSNum.add, mathRound, JSNum.toInt?] at h
    · subst hc
      rw [if_neg (by norm_num), if_neg (by norm_num)] at h
      simp [JSNum.add, mathRound, JSNum.toInt?] at h
    · rw [if_pos (by rw [Int.cast_pos]; omega)] at h
      simp [JSNum.add, mathRound, JSNum.toInt?] at h
  · refine ⟨hz, ?_⟩
    rw [calculatePayout_toInt stakeCents americanOdds hz] at h
    exact (Option.some_inj.mp h).symm

theorem payoutFin_eq_specPayout (stakeCents americanOdds : ℤ) :
    payoutFin stakeCents americanOdds = specPayout stakeCents americanOdds := by
  unfold payoutFin specPayout roundHalfUp
  by_cases hpos : americanOdds > 0
  · rw [if_pos hpos, if_pos hpos]
    rw [show ((stakeCents * americanOdds : ℤ) : ℚ) / 100 + (stakeCents : ℚ) + 1/2
          = (stakeCents * americanOdds : ℚ) / 100 + 1/2 + ((stakeCents : ℤ) : ℚ) by push_cast; ring]
    exact Int.floor_add_int _ _
  · rw [if_neg hpos, if_neg hpos]
    rw [show ((stakeCents * 100 : ℤ) : ℚ) / |((americanOdds : ℤ) : ℚ)| + (stakeCents : ℚ) + 1/2
          = (stakeCents * 100 : ℚ) / |(americanOdds : ℚ)| + 1/2 + ((stakeCents : ℤ) : ℚ) by push_cast; ring]
    exact Int.floor_add_int _ _

theorem payoutFin_pos (stakeCents americanOdds : ℤ) (hs : 1 ≤ stakeCents) :
    1 ≤ payoutFin stakeCents americanOdds := by
  have hs' : (1 : ℚ) ≤ (stakeCents : ℚ) := by exact_mod_cast hs
  unfold payoutFin
  by_cases hpos : americanOdds > 0
  · rw [if_pos hpos, Int.le_floor]
    have ho' : (1 : ℚ) ≤ (americanOdds : ℚ) := by exact_mod_cast hpos
    have h1 : (0 : ℚ) ≤ ((stakeCents * americanOdds : ℤ) : ℚ) / 100 := by
      apply div_nonneg _ (by norm_num)
      push_cast
      nlinarith
    push_cast
    push_cast at h1
    linarith
  · rw [if_neg hpos, Int.le_floor]
    have h1 : (0 : ℚ) ≤ ((stakeCents * 100 : ℤ) : ℚ) / |((americanOdds : ℤ) : ℚ)| := by
      apply div_nonneg _ (abs_nonneg _)
      push_cast
      linarith
    push_cast
    push_cast at h1
    linarith

/-- Claim C4: for every integer `stakeCents` and nonzero integer
`americanOdds`, `calculatePayout` is a pure function equal to the
specification formula `round(stake × odds / 100) + stake` (odds > 0) resp.
`round(stake × 100 / |odds|) + stake` (odds < 0) with round-half-up
rounding; and the four table cases
`calculatePayout(100, 150) = 250`, `(110, -110) = 210`, `(50, -200) = 75`,
`(1, 100) = 2` hold. -/
theorem calculatePayout_matches_spec :
    (∀ stakeCents americanOdds : ℤ, americanOdds ≠ 0 →
        calculatePayout stakeCents americanOdds
          = JSNum.fin ((specPayout stakeCents americanOdds : ℤ) : ℚ))
    ∧ calculatePayout 100 150 = JSNum.fin 250
    ∧ calculatePayout 110 (-110) = JSNum.fin 210
    ∧ calculatePayout 50 (-200) = JSNum.fin 75
    ∧ calculatePayout 1 100 = JSNum.fin 2 := by
  refine ⟨?_, ?_, ?_, ?_, ?_⟩
  · intro s o h
    rw [calculatePayout_fin s o h, payoutFin_eq_specPayout]
  all_goals
    norm_num [calculatePayout, jsDiv, JSNum.add, mathRound, ratFloor_eq, Int.floor_eq_iff]

theorem calculatePayout_matches_spec_witness :
    (5 : ℤ) ≠ 0 ∧ calculatePayout 7 5 = JSNum.fin ((specPayout 7 5 : ℤ) : ℚ) :=
  ⟨by decide, calculatePayout_matches_spec.1 7 5 (by decide)⟩

/-- Claim C8 (code bug): the source does **not** reject `americanOdds = 0`.
The `else` branch receives it, `Math.abs(0) = 0`, and the division by zero
makes `calculatePayout` return a non-finite value (`Infinity` for positive
stakes, `NaN` for stake 0, `-Infinity` for negative stakes) instead of
failing with `InvalidOdds` as the specification requires. -/
theorem calculatePayout_zero_odds_not_rejected :
    calculatePayout 100 0 = JSNum.posInf
    ∧ (∀ s : ℤ, 0 < s → calculatePayout s 0 = JSNum.posInf)
    ∧ calculatePayout 0 0 = JSNum.nan
    ∧ (∀ s : ℤ, s < 0 → calculatePayout s 0 = JSNum.negInf) := by
  refine ⟨by norm_num [calculatePayout, jsDiv, JSNum.add, mathRound], ?_,
    by norm_num [calculatePayout, jsDiv, JSNum.add, mathRound], ?_⟩
  · intro s hs
    unfold calculatePayout
    rw [if_neg (by norm_num : ¬(0 : ℤ) > 0)]
    rw [jsDiv, if_pos (by simp)]
    rw [if_pos (by rw [Int.cast_pos]; omega)]
    rfl
  · intro s hs
    unfold calculatePayout
    rw [if_neg (by norm_num : ¬(0 : ℤ) > 0)]
    rw [jsDiv, if_pos (by simp)]
    rw [if_neg (by rw [Int.cast_pos]; omega), if_pos (by rw [Int.cast_lt_zero]; omega)]
    rfl

theorem calculatePayout_zero_odds_not_rejected_witness :
    (0 : ℤ) < 7 ∧ calculatePayout 7 0 = JSNum.posInf :=
  ⟨by decide, calculatePayout_zero_odds_not_rejected.2.1 7 (by decide)⟩

/-! ## List lemmas -/

theorem sumFor_append (l : List LedgerEntry) (e : LedgerEntry) (uid : String) :
    sumFor (l ++ [e]) uid = sumFor l uid + (if e.userId = uid then e.amountCents else 0) := by
  unfold sumFor
  rw [List.filter_append, List.map_append, List.sum_append]
  congr 1
  by_cases h : e.userId = uid
  · simp [List.filter_cons, h]
  · simp [List.filter_cons, h]

/-- Appending a ledger entry for `uid` of amount `δ` while bumping the
balance of every user row with id `uid` by `δ` preserves the per-user
ledger-balance equality. -/
theorem balanced_bump (users : List User) (l : List LedgerEntry) (e : LedgerEntry)
    (uid : String) (δ : ℤ) (huid : e.userId = uid) (hamt : e.amountCents = δ)
    (hall : ∀ u ∈ users, u.balanceCents = sumFor l u.id) :
    ∀ u ∈ users.map (fun x =>
        if x.id == uid then { x with balanceCents := x.balanceCents + δ } else x),
      u.balanceCents = sumFor (l ++ [e]) u.id := by
  intro u hu
  rw [List.mem_map] at hu
  obtain ⟨x, hx, rfl⟩ := hu
  by_cases h : x.id == uid
  · rw [if_pos h]
    have hxid : x.id = uid := by simpa using h
    show x.balanceCents + δ = sumFor (l ++ [e]) x.id
    rw [sumFor_append, hall x hx, huid, hxid, if_pos rfl, hamt]
  · rw [if_neg h]
    have hxid : ¬ x.id = uid := by simpa using h
    rw [sumFor_append, hall x hx, huid, if_neg (fun hh => hxid hh.symm), add_zero]

/-- Same, for a balance decrement paired with a negative entry. -/
theorem balanced_decrement (users : List User) (l : List LedgerEntry) (e : LedgerEntry)
    (uid : String) (s : ℤ) (huid : e.userId = uid) (hamt : e.amountCents = -s)
    (hall : ∀ u ∈ users, u.balanceCents = sumFor l u.id) :
    ∀ u ∈ users.map (fun x =>
        if x.id == uid then { x with balanceCents := x.balanceCents - s } else x),
      u.balanceCents = sumFor (l ++ [e]) u.id := by
  have h := balanced_bump users l e uid (-s) huid hamt hall
  have heq : (users.map (fun x =>
        if x.id == uid then { x with balanceCents := x.balanceCents - s } else x))
      = (users.map (fun x =>
        if x.id == uid then { x with balanceCents := x.balanceCents + (-s) } else x)) := by
    apply List.map_congr_left
    intro x _
    by_cases hx : x.id == uid
    · rw [if_pos hx, if_pos hx, sub_eq_add_neg]
    · rw [if_neg hx, if_neg hx]
  rw [heq]
  exact h

/-- Appending entries that belong to no user in the list preserves the
equality. -/
theorem balanced_foreign (users : List User) (l : List LedgerEntry) (e : LedgerEntry)
    (hforeign : ∀ u ∈ users, ¬ e.userId = u.id)
    (hall : ∀ u ∈ users, u.balanceCents = sumFor l u.id) :
    ∀ u ∈ users, u.balanceCents = sumFor (l ++ [e]) u.id := by
  intro u hu
  rw [sumFor_append, if_neg (hforeign u hu), add_zero]
  exact hall u hu

theorem applyBalanceChange_some (users : List User) (uid : String) (δ : ℤ)
    (users1 : List User) (h : applyBalanceChange users uid δ = some users1) :
    users1 = users.map (fun u =>
        if u.id == uid then { u with balanceCents := u.balanceCents + δ } else u)
      ∧ users.any (fun u => u.id == uid) = true := by
  unfold applyBalanceChange at h
  split at h
  · exact ⟨(Option.some_inj.mp h).symm, by assumption⟩
  · cases h

/-- Every call to `placeWager` either fails leaving the database unchanged
(transaction rollback) or returns a created wager. -/
theorem place_state_or (db : DB) (now : ℤ) (req : CreateWagerRequest)
    (wagerId entryId : String) :
    (placeWager db now req wagerId entryId).1 = db
      ∨ ∃ w, (placeWager db now req wagerId entryId).2 = Except.ok w := by
  unfold placeWager
  split
  · exact Or.inl rfl
  · split
    · exact Or.inl rfl
    · split
      · exact Or.inl rfl
      · split
        · exact Or.inl rfl
        · split
          · exact Or.inl rfl
          · split
            · exact Or.inl rfl
            · split
              · exact Or.inl rfl
              · unfold placeAccept
                split
                · exact Or.inl rfl
                · split
                  · exact Or.inr ⟨_, rfl⟩
                  · exact Or.inr ⟨_, rfl⟩

/-- A failed `placeWager` call leaves the database unchanged. -/
theorem place_fail_state (db : DB) (now : ℤ) (req : CreateWagerRequest)
    (wagerId entryId : String) (e : ApiError)
    (h : (placeWager db now req wagerId entryId).2 = Except.error e) :
    (placeWager db now req wagerId entryId).1 = db := by
  rcases place_state_or db now req wagerId entryId with h1 | ⟨w, hw⟩
  · exact h1
  · rw [hw] at h
    cases h

/-- Full evaluation of a `placeWager` call whose preconditions all hold. -/
theorem place_success_eq (db : DB) (now : ℤ) (req : CreateWagerRequest)
    (wagerId entryId : String) (line : Line) (market : Market) (event : Event)
    (hstake : 1 ≤ req.stakeCents)
    (hline : db.lines.find? (fun l => l.id == req.lineId) = some line)
    (hmarket : db.markets.find? (fun m => m.id == line.marketId) = some market)
    (hevent : db.events.find? (fun e => e.id == market.eventId) = some event)
    (hsched : event.status = EventStatus.SCHEDULED)
    (htime : ¬ ((event.startsAt - now : ℤ) : ℚ) / (1000 * 60) < 5)
    (hchk : userPrecheck db req = none)
    (hfk : db.users.any (fun u => u.id == req.userId.getD defaultUserId) = true) :
    placeWager db now req wagerId entryId
      = ({ db with
            wagers := db.wagers ++ [placedWagerOf req now wagerId line],
            ledgerEntries := db.ledgerEntries ++ [stakeEntryOf req now wagerId entryId line market event],
            users := match req.userId with
              | some uid => db.users.map (fun u =>
                  if u.id == uid then { u with balanceCents := u.balanceCents - req.stakeCents } else u)
              | none => db.users },
          Except.ok (placedWagerOf req now wagerId line)) := by
  unfold placeWager
  rw [if_neg (by omega)]
  simp only [hline, hmarket, hevent]
  rw [if_neg (by simp [hsched]), if_neg htime]
  simp only [hchk]
  unfold placeAccept
  rw [if_neg (by simp [hfk])]
  cases hu : req.userId with
  | some uid => rfl
  | none => rfl

theorem statusUpdate_find? (l : List Wager) (tid : String) (st : WagerStatus) (wid : String) :
    (statusUpdate l tid st).find? (fun w => w.id == wid)
      = (l.find? (fun w => w.id == wid)).map
          (fun w => if w.id == tid then { w with status := st } else w) := by
  induction l with
  | nil => rfl
  | cons a t ih =>
    have hid : ((if a.id == tid then { a with status := st } else a) : Wager).id = a.id := by
      by_cases h : a.id == tid
      · rw [if_pos h]
      · rw [if_neg h]
    simp only [statusUpdate, List.map_cons] at ih ⊢
    rw [List.find?_cons, List.find?_cons, hid]
    by_cases h : a.id == wid
    · have hb : (a.id == wid) = true := h
      rw [hb]
      simp
    · have hb : (a.id == wid) = false := by simpa using h
      rw [hb]
      simpa using ih

/-- Every call to `settleWager` either fails leaving the database
unchanged (transaction rollback), or finds the wager `PENDING` and
produces exactly the settled state. -/
theorem settle_changes (db : DB) (now : ℤ) (wid : String) (o : Outcome) (eid : String) :
    (∃ e, settleWager db now wid o eid = (db, Except.error e))
    ∨ ∃ w, db.wagers.find? (fun x => x.id == wid) = some w
        ∧ w.status = WagerStatus.PENDING
        ∧ settleWager db now wid o eid
            = (settledState db w o eid now,
               Except.ok ({ w with status := o.toStatus },
                 (settleEntries w o eid now).head?, settleDelta w o)) := by
  unfold settleWager
  split
  · exact Or.inl ⟨_, rfl⟩
  · next existing hfind =>
    split
    · exact Or.inl ⟨_, rfl⟩
    · next hstat =>
      have hpend : existing.status = WagerStatus.PENDING := not_not.mp hstat
      cases o with
      | WON =>
        dsimp only
        cases hp : (calculatePayout existing.stakeCents existing.acceptedPrice).toInt? with
        | none => exact Or.inl ⟨ApiError.dbError, rfl⟩
        | some p =>
          dsimp only
          unfold finishSettle
          split
          · next hpos =>
            split
            · exact Or.inl ⟨ApiError.dbError, rfl⟩
            · next users1 happly =>
              obtain ⟨hu1, _⟩ := applyBalanceChange_some _ _ _ _ happly
              refine Or.inr ⟨existing, hfind, hpend, ?_⟩
              subst hu1
              simp [settledState, settleEntries, settleDelta, hp, hpos]
          · next hnpos =>
            refine Or.inr ⟨existing, hfind, hpend, ?_⟩
            simp [settledState, settleEntries, settleDelta, hp, hnpos]
      | PUSH =>
        dsimp only
        unfold finishSettle
        split
        · next hpos =>
          split
          · exact Or.inl ⟨ApiError.dbError, rfl⟩
          · next users1 happly =>
            obtain ⟨hu1, _⟩ := applyBalanceChange_some _ _ _ _ happly
            refine Or.inr ⟨existing, hfind, hpend, ?_⟩
            subst hu1
            simp [settledState, settleEntries, settleDelta, hpos]
        · next hnpos =>
          refine Or.inr ⟨existing, hfind, hpend, ?_⟩
          simp [settledState, settleEntries, settleDelta, hnpos]
      | VOID =>
        dsimp only
        unfold finishSettle
        split
        · next hpos =>
          split
          · exact Or.inl ⟨ApiError.dbError, rfl⟩
          · next users1 happly =>
            obtain ⟨hu1, _⟩ := applyBalanceChange_some _ _ _ _ happly
            refine Or.inr ⟨existing, hfind, hpend, ?_⟩
            subst hu1
            simp [settledState, settleEntries, settleDelta, hpos]
        · next hnpos =>
          refine Or.inr ⟨existing, hfind, hpend, ?_⟩
          simp [settledState, settleEntries, settleDelta, hnpos]
      | LOST =>
        dsimp only
        refine Or.inr ⟨existing, hfind, hpend, ?_⟩
        simp [settledState, settleEntries, settleDelta]

theorem outcome_toStatus_ne_pending (o : Outcome) : o.toStatus ≠ WagerStatus.PENDING := by
  cases o <;> simp [Outcome.toStatus]

theorem settlementCount_settledState (db : DB) (w : Wager) (o : Outcome)
    (eid : String) (now : ℤ) (wid : String) :
    settlementCount (settledState db w o eid now) wid
      = settlementCount db wid
        + ((settleEntries w o eid now).filter (fun e => isSettlementEntry e wid)).length := by
  unfold settlementCount settledState
  simp [List.filter_append]

theorem settleEntries_length_le (w : Wager) (o : Outcome) (eid : String) (now : ℤ) :
    (settleEntries w o eid now).length ≤ 1 := by
  cases o with
  | WON =>
    cases hp : (calculatePayout w.stakeCents w.acceptedPrice).toInt? with
    | none => simp [settleEntries, hp]
    | some p => simp [settleEntries, hp]
  | PUSH => simp [settleEntries]
  | VOID => simp [settleEntries]
  | LOST => simp [settleEntries]

theorem settleEntries_other (w : Wager) (o : Outcome) (eid : String) (now : ℤ)
    (wid : String) (hne : ¬ w.id = wid) :
    (settleEntries w o eid now).filter (fun e => isSettlementEntry e wid) = [] := by
  cases o with
  | WON =>
    cases hp : (calculatePayout w.stakeCents w.acceptedPrice).toInt? with
    | none => simp [settleEntries, hp]
    | some p => simp [settleEntries, hp, isSettlementEntry, payoutEntryOf, hne]
  | PUSH => simp [settleEntries, isSettlementEntry, refundEntryOf, hne]
  | VOID => simp [settleEntries, isSettlementEntry, refundEntryOf, hne]
  | LOST => simp [settleEntries]

/-- A wager found in a status-updated list is the wager found in the
original list, with the status rewritten when its id matches. -/
theorem statusUpdate_find_status (l : List Wager) (tid : String) (st : WagerStatus)
    (wid : String) (w w' : Wager) (hf : l.find? (fun x => x.id == wid) = some w)
    (hfu : (statusUpdate l tid st).find? (fun x => x.id == wid) = some w') :
    w' = if w.id == tid then { w with status := st } else w := by
  rw [statusUpdate_find?, hf] at hfu
  exact (Option.some_inj.mp hfu).symm

/-- One settlement call preserves "at most one settlement entry for `wid`,
and none while `wid` is still `PENDING`". -/
theorem settle_once_step (db : DB) (now : ℤ) (wid2 : String) (o : Outcome)
    (eid : String) (wid : String)
    (h1 : settlementCount db wid ≤ 1)
    (h2 : ∀ w, db.wagers.find? (fun x => x.id == wid) = some w →
        w.status = WagerStatus.PENDING → settlementCount db wid = 0) :
    settlementCount (settleWager db now wid2 o eid).1 wid ≤ 1
    ∧ ∀ w, (settleWager db now wid2 o eid).1.wagers.find? (fun x => x.id == wid) = some w →
        w.status = WagerStatus.PENDING →
        settlementCount (settleWager db now wid2 o eid).1 wid = 0 := by
  rcases settle_changes db now wid2 o eid with ⟨e, he⟩ | ⟨w, hfind, hpend, heq⟩
  · rw [he]
    exact ⟨h1, h2⟩
  · rw [heq]
    have hwid2 : w.id = wid2 := by simpa using List.find?_some hfind
    by_cases hww : w.id = wid
    · have hw12 : wid2 = wid := by rw [← hwid2, ← hww]
      subst hw12
      have hc0 : settlementCount db wid2 = 0 := h2 w hfind hpend
      constructor
      · rw [settlementCount_settledState, hc0]
        simpa using le_trans (List.length_filter_le _ _) (settleEntries_length_le w o eid now)
      · intro w' hfind' hpend'
        exfalso
        rw [show (settledState db w o eid now).wagers
              = statusUpdate db.wagers w.id o.toStatus from rfl] at hfind'
        have hw' := statusUpdate_find_status db.wagers w.id o.toStatus wid2 w w' hfind hfind'
        rw [if_pos (by simp : (w.id == w.id) = true)] at hw'
        rw [hw'] at hpend'
        exact outcome_toStatus_ne_pending o hpend'
    · constructor
      · rw [settlementCount_settledState, settleEntries_other w o eid now wid hww]
        simpa using h1
      · intro w' hfind' hpend'
        rw [show (settledState db w o eid now).wagers
              = statusUpdate db.wagers w.id o.toStatus from rfl] at hfind'
        rw [settlementCount_settledState, settleEntries_other w o eid now wid hww]
        cases hf : db.wagers.find? (fun x => x.id == wid) with
        | none =>
          rw [statusUpdate_find?, hf] at hfind'
          simp at hfind'
        | some w0 =>
          have hw' := statusUpdate_find_status db.wagers w.id o.toStatus wid w0 w' hf hfind'
          have hw0id : w0.id = wid := by simpa using List.find?_some hf
          have hcond : (w0.id == w.id) = false := by
            simp only [beq_eq_false_iff_ne, ne_eq]
            intro hh
            exact hww (by rw [← hh, hw0id])
          rw [hcond] at hw'
          rw [if_neg (by simp)] at hw'
          rw [hw'] at hpend'
          simpa using h2 w0 hf hpend'

theorem settleMany_once (calls : List (ℤ × String × Outcome × String)) (db : DB) (wid : String)
    (h1 : settlementCount db wid ≤ 1)
    (h2 : ∀ w, db.wagers.find? (fun x => x.id == wid) = some w →
        w.status = WagerStatus.PENDING → settlementCount db wid = 0) :
    settlementCount (settleMany db calls) wid ≤ 1 := by
  induction calls generalizing db with
  | nil => exact h1
  | cons c rest ih =>
    obtain ⟨g1, g2⟩ := settle_once_step db c.1 c.2.1 c.2.2.1 c.2.2.2 wid h1 h2
    exact ih _ g1 g2

/-! ## Ledger-balance preservation -/

/-- Every call to `placeWager` either fails leaving the database unchanged
or succeeds against found line/market/event rows, producing exactly the
wager row, the stake-debit entry, and (when a user id was supplied) the
balance decrement. -/
theorem place_changes (db : DB) (now : ℤ) (req : CreateWagerRequest)
    (wagerId entryId : String) :
    (∃ e, placeWager db now req wagerId entryId = (db, Except.error e))
    ∨ ∃ line market event,
        db.lines.find? (fun l => l.id == req.lineId) = some line
        ∧ db.markets.find? (fun m => m.id == line.marketId) = some market
        ∧ db.events.find? (fun e => e.id == market.eventId) = some event
        ∧ placeWager db now req wagerId entryId
            = ({ db with
                  wagers := db.wagers ++ [placedWagerOf req now wagerId line],
                  ledgerEntries := db.ledgerEntries
                    ++ [stakeEntryOf req now wagerId entryId line market event],
                  users := match req.userId with
                    | some uid => db.users.map (fun u =>
                        if u.id == uid then
                          { u with balanceCents := u.balanceCents - req.stakeCents } else u)
                    | none => db.users },
               Except.ok (placedWagerOf req now wagerId line)) := by
  unfold placeWager
  split
  · exact Or.inl ⟨_, rfl⟩
  · split
    · exact Or.inl ⟨_, rfl⟩
    · next line hline =>
      split
      · exact Or.inl ⟨_, rfl⟩
      · next market hmarket =>
        split
        · exact Or.inl ⟨_, rfl⟩
        · next event hevent =>
          split
          · exact Or.inl ⟨_, rfl⟩
          · split
            · exact Or.inl ⟨_, rfl⟩
            · split
              · exact Or.inl ⟨_, rfl⟩
              · unfold placeAccept
                split
                · exact Or.inl ⟨_, rfl⟩
                · refine Or.inr ⟨line, market, event, hline, hmarket, hevent, ?_⟩
                  split
                  · rfl
                  · rfl

/-- `placeWager` with a supplied user id preserves the ledger-balance
invariant (both on failure and on success). -/
theorem place_preserves_balanced (db : DB) (now : ℤ) (req : CreateWagerRequest)
    (wagerId entryId : String) (uid : String) (hu : req.userId = some uid)
    (hbal : db.balancedLedger) :
    (placeWager db now req wagerId entryId).1.balancedLedger := by
  rcases place_changes db now req wagerId entryId with ⟨e, he⟩ | ⟨line, market, event, _, _, _, heq⟩
  · rw [he]
    exact hbal
  · rw [heq, hu]
    intro u hmem
    unfold DB.ledgerSum
    refine balanced_decrement db.users db.ledgerEntries _ uid req.stakeCents ?_ rfl hbal u ?_
    · show (stakeEntryOf req now wagerId entryId line market event).userId = uid
      simp [stakeEntryOf, hu]
    · exact hmem

/-- `settleWager` preserves the ledger-balance invariant, for databases
whose wagers all carry the positive stakes that `placeWager` validation
guarantees. -/
theorem settle_preserves_balanced (db : DB) (now : ℤ) (wid : String) (o : Outcome)
    (eid : String) (hstakes : ∀ w ∈ db.wagers, 1 ≤ w.stakeCents)
    (hbal : db.balancedLedger) :
    (settleWager db now wid o eid).1.balancedLedger := by
  rcases settle_changes db now wid o eid with ⟨e, he⟩ | ⟨w, hfind, _, heq⟩
  · rw [he]
    exact hbal
  · rw [heq]
    have hws : 1 ≤ w.stakeCents := hstakes w (List.mem_of_find?_eq_some hfind)
    cases o with
    | LOST =>
      intro u hmem
      unfold DB.ledgerSum
      show u.balanceCents = sumFor (db.ledgerEntries ++ settleEntries w Outcome.LOST eid now) u.id
      rw [show settleEntries w Outcome.LOST eid now = [] from rfl, List.append_nil]
      refine hbal u ?_
      simpa [settledState, settleDelta] using hmem
    | WON =>
      cases hp : (calculatePayout w.stakeCents w.acceptedPrice).toInt? with
      | none =>
        intro u hmem
        unfold DB.ledgerSum
        show u.balanceCents = sumFor (db.ledgerEntries ++ settleEntries w Outcome.WON eid now) u.id
        rw [show settleEntries w Outcome.WON eid now
              = ((calculatePayout w.stakeCents w.acceptedPrice).toInt?).elim []
                  (fun p => [payoutEntryOf { w with status := Outcome.WON.toStatus } eid now p]) from by
            simp [settleEntries]
            cases (calculatePayout w.stakeCents w.acceptedPrice).toInt? <;> rfl]
        rw [hp]
        simp only [Option.elim, List.append_nil]
        refine hbal u ?_
        have : ¬ (0 : ℤ) < settleDelta w Outcome.WON := by
          simp [settleDelta, hp]
        simpa [settledState, if_neg this] using hmem
      | some p =>
        obtain ⟨hodds, hpf⟩ := toInt_some_odds_ne_zero w.stakeCents w.acceptedPrice p hp
        have hppos : 0 < p := by
          rw [hpf]
          have := payoutFin_pos w.stakeCents w.acceptedPrice hws
          omega
        have hδ : settleDelta w Outcome.WON = p := by simp [settleDelta, hp]
        intro u hmem
        unfold DB.ledgerSum
        show u.balanceCents = sumFor (db.ledgerEntries ++ settleEntries w Outcome.WON eid now) u.id
        rw [show settleEntries w Outcome.WON eid now
              = [payoutEntryOf { w with status := Outcome.WON.toStatus } eid now p] from by
            simp [settleEntries, hp]]
        refine balanced_bump db.users db.ledgerEntries _ w.userId p rfl rfl hbal u ?_
        rw [show (settledState db w Outcome.WON eid now).users
              = if 0 < settleDelta w Outcome.WON then
                  db.users.map (fun u => if u.id == w.userId then
                    { u with balanceCents := u.balanceCents + settleDelta w Outcome.WON } else u)
                else db.users from rfl, hδ, if_pos hppos] at hmem
        exact hmem
    | PUSH =>
      have hδ : settleDelta w Outcome.PUSH = w.stakeCents := rfl
      intro u hmem
      unfold DB.ledgerSum
      show u.balanceCents = sumFor (db.ledgerEntries ++ settleEntries w Outcome.PUSH eid now) u.id
      rw [show settleEntries w Outcome.PUSH eid now
            = [refundEntryOf { w with status := Outcome.PUSH.toStatus } eid now "pushed"] from rfl]
      refine balanced_bump db.users db.ledgerEntries _ w.userId w.stakeCents rfl rfl hbal u ?_
      rw [show (settledState db w Outcome.PUSH eid now).users
            = if 0 < settleDelta w Outcome.PUSH then
                db.users.map (fun u => if u.id == w.userId then
                  { u with balanceCents := u.balanceCents + settleDelta w Outcome.PUSH } else u)
              else db.users from rfl, hδ, if_pos (by omega : (0 : ℤ) < w.stakeCents)] at hmem
      exact hmem
    | VOID =>
      have hδ : settleDelta w Outcome.VOID = w.stakeCents := rfl
      intro u hmem
      unfold DB.ledgerSum
      show u.balanceCents = sumFor (db.ledgerEntries ++ settleEntries w Outcome.VOID eid now) u.id
      rw [show settleEntries w Outcome.VOID eid now
            = [refundEntryOf { w with status := Outcome.VOID.toStatus } eid now "voided"] from rfl]
      refine balanced_bump db.users db.ledgerEntries _ w.userId w.stakeCents rfl rfl hbal u ?_
      rw [show (settledState db w Outcome.VOID eid now).users
            = if 0 < settleDelta w Outcome.VOID then
                db.users.map (fun u => if u.id == w.userId then
                  { u with balanceCents := u.balanceCents + settleDelta w Outcome.VOID } else u)
              else db.users from rfl, hδ, if_pos (by omega : (0 : ℤ) < w.stakeCents)] at hmem
      exact hmem

/-! ## Error discrimination and success evaluation -/

theorem userPrecheck_some (db : DB) (req : CreateWagerRequest) (e : ApiError)
    (h : userPrecheck db req = some e) :
    e = ApiError.userNotFound ∨ e = ApiError.insufficientBalance := by
  unfold userPrecheck at h
  split at h
  · cases h
  · split at h
    · exact Or.inl (Option.some_inj.mp h).symm
    · split at h
      · exact Or.inr (Option.some_inj.mp h).symm
      · cases h

theorem placeAccept_error (db : DB) (now : ℤ) (req : CreateWagerRequest)
    (wagerId entryId : String) (line : Line) (market : Market) (event : Event) (e : ApiError)
    (h : (placeAccept db now req wagerId entryId line market event).2 = Except.error e) :
    e = ApiError.dbError := by
  unfold placeAccept at h
  split at h
  · simp only at h
    injection h with h1
    exact h1.symm
  · split at h <;> cases h

/-- With the line, market and event found and the event `SCHEDULED` (and a
valid stake), `placeWager` returns `bettingClosed` exactly when the event
starts in (strictly) less than 5 minutes. -/
theorem place_bettingClosed_iff (db : DB) (now : ℤ) (req : CreateWagerRequest)
    (wagerId entryId : String) (line : Line) (market : Market) (event : Event)
    (hstake : 1 ≤ req.stakeCents)
    (hline : db.lines.find? (fun l => l.id == req.lineId) = some line)
    (hmarket : db.markets.find? (fun m => m.id == line.marketId) = some market)
    (hevent : db.events.find? (fun e => e.id == market.eventId) = some event)
    (hsched : event.status = EventStatus.SCHEDULED) :
    (placeWager db now req wagerId entryId).2 = Except.error ApiError.bettingClosed
      ↔ ((event.startsAt - now : ℤ) : ℚ) / (1000 * 60) < 5 := by
  unfold placeWager
  rw [if_neg (by omega)]
  simp only [hline, hmarket, hevent]
  rw [if_neg (by simp [hsched])]
  by_cases htime : ((event.startsAt - now : ℤ) : ℚ) / (1000 * 60) < 5
  · rw [if_pos htime]
    simpa using htime
  · rw [if_neg htime]
    constructor
    · intro h
      exfalso
      cases hchk : userPrecheck db req with
      | some e =>
        rw [hchk] at h
        simp only at h
        injection h with h1
        rcases userPrecheck_some db req e hchk with he | he <;> rw [he] at h1 <;> cases h1
      | none =>
        rw [hchk] at h
        simp only at h
        have := placeAccept_error db now req wagerId entryId line market event
          ApiError.bettingClosed h
        cases this
    · intro h
      exact absurd h htime

/-- Full evaluation of a `settleWager` call on a found `PENDING` wager,
assuming the owner row exists when a positive balance change is due, and
(for `WON`) that the payout is a finite integer. -/
theorem settle_success_eq (db : DB) (now : ℤ) (wid : String) (o : Outcome) (eid : String)
    (w : Wager) (hfind : db.wagers.find? (fun x => x.id == wid) = some w)
    (hpend : w.status = WagerStatus.PENDING)
    (hok : 0 < settleDelta w o → db.users.any (fun u => u.id == w.userId) = true)
    (hwon : o = Outcome.WON →
        ∃ p, (calculatePayout w.stakeCents w.acceptedPrice).toInt? = some p) :
    settleWager db now wid o eid
      = (settledState db w o eid now,
         Except.ok ({ w with status := o.toStatus },
           (settleEntries w o eid now).head?, settleDelta w o)) := by
  unfold settleWager
  simp only [hfind]
  rw [if_neg (by simp [hpend])]
  cases o with
  | WON =>
    obtain ⟨p, hp⟩ := hwon rfl
    dsimp only
    simp only [hp]
    unfold finishSettle
    have hδ : settleDelta w Outcome.WON = p := by simp [settleDelta, hp]
    by_cases hpos : 0 < p
    · rw [if_pos hpos]
      have hany := hok (by rw [hδ]; exact hpos)
      unfold applyBalanceChange
      rw [if_pos (by simpa using hany)]
      simp [settledState, settleEntries, settleDelta, hp, hpos]
    · rw [if_neg hpos]
      simp [settledState, settleEntries, settleDelta, hp, hpos]
  | PUSH =>
    dsimp only
    unfold finishSettle
    by_cases hpos : 0 < w.stakeCents
    · rw [if_pos hpos]
      have hany := hok (by simpa [settleDelta] using hpos)
      unfold applyBalanceChange
      rw [if_pos (by simpa using hany)]
      simp [settledState, settleEntries, settleDelta, hpos]
    · rw [if_neg hpos]
      simp [settledState, settleEntries, settleDelta, hpos]
  | VOID =>
    dsimp only
    unfold finishSettle
    by_cases hpos : 0 < w.stakeCents
    · rw [if_pos hpos]
      have hany := hok (by simpa [settleDelta] using hpos)
      unfold applyBalanceChange
      rw [if_pos (by simpa using hany)]
      simp [settledState, settleEntries, settleDelta, hpos]
    · rw [if_neg hpos]
      simp [settledState, settleEntries, settleDelta, hpos]
  | LOST =>
    dsimp only
    simp [settledState, settleEntries, settleDelta]

/-- Settling a wager that is not `PENDING` fails with the already-settled
error carrying the existing status, and changes nothing. -/
theorem settle_already (db : DB) (now : ℤ) (wid : String) (o : Outcome) (eid : String)
    (w : Wager) (hfind : db.wagers.find? (fun x => x.id == wid) = some w)
    (hne : w.status ≠ WagerStatus.PENDING) :
    settleWager db now wid o eid = (db, Except.error (ApiError.alreadySettled w.status)) := by
  unfold settleWager
  simp only [hfind]
  rw [if_pos hne]

/-- A successful settlement found the wager `PENDING` and produced the
settled state. -/
theorem settle_ok_state (db db1 : DB) (now : ℤ) (wid : String) (o : Outcome) (eid : String)
    (r : Wager × Option LedgerEntry × ℤ)
    (h : settleWager db now wid o eid = (db1, Except.ok r)) :
    ∃ w, db.wagers.find? (fun x => x.id == wid) = some w
      ∧ w.status = WagerStatus.PENDING ∧ db1 = settledState db w o eid now := by
  rcases settle_changes db now wid o eid with ⟨e, he⟩ | ⟨w, hfind, hpend, heq⟩
  · rw [he] at h
    have h2 := congrArg Prod.snd h
    simp at h2
  · rw [heq] at h
    exact ⟨w, hfind, hpend, (congrArg Prod.fst h).symm⟩

/-- After a successful settlement, a second settlement call on the same
wager fails with `alreadySettled` (carrying the first call's terminal
status) and changes nothing. -/
theorem settle_second_call (db db1 : DB) (now1 now2 : ℤ) (wid : String)
    (o1 o2 : Outcome) (eid1 eid2 : String) (r : Wager × Option LedgerEntry × ℤ)
    (h : settleWager db now1 wid o1 eid1 = (db1, Except.ok r)) :
    settleWager db1 now2 wid o2 eid2 = (db1, Except.error (ApiError.alreadySettled o1.toStatus)) := by
  obtain ⟨w, hfind, hpend, hdb1⟩ := settle_ok_state db db1 now1 wid o1 eid1 r h
  have hfind1 : db1.wagers.find? (fun x => x.id == wid) = some { w with status := o1.toStatus } := by
    rw [hdb1, show (settledState db w o1 eid1 now1).wagers
          = statusUpdate db.wagers w.id o1.toStatus from rfl, statusUpdate_find?, hfind]
    simp
  exact settle_already db1 now2 wid o2 eid2 _ hfind1 (outcome_toStatus_ne_pending o1)

/-! ## Settlement ignores the lines table

The settlement route reads only the wager row (whose `acceptedPrice` was
frozen at placement) and the owner's user row; the lines table never
influences the outcome. -/

theorem finishSettle_snd_congr (db0 db0' dbNew dbNew' : DB) (wager : Wager)
    (entry : Option LedgerEntry) (δ : ℤ) (h : dbNew.users = dbNew'.users) :
    (finishSettle db0 dbNew wager entry δ).2 = (finishSettle db0' dbNew' wager entry δ).2 := by
  unfold finishSettle
  by_cases hpos : 0 < δ
  · rw [if_pos hpos, if_pos hpos, h]
    cases applyBalanceChange dbNew'.users wager.userId δ <;> rfl
  · rw [if_neg hpos, if_neg hpos]

theorem settle_snd_congr (u : List User) (lg : List League) (ev : List Event)
    (mk : List Market) (l1 l2 : List Line) (wg : List Wager) (le : List LedgerEntry)
    (now : ℤ) (wid : String) (o : Outcome) (eid : String) :
    (settleWager (DB.mk u lg ev mk l1 wg le) now wid o eid).2
      = (settleWager (DB.mk u lg ev mk l2 wg le) now wid o eid).2 := by
  unfold settleWager
  cases hf : wg.find? (fun x => x.id == wid) with
  | none => rfl
  | some w =>
    dsimp only
    by_cases hst : w.status ≠ WagerStatus.PENDING
    · rw [if_pos hst, if_pos hst]
    · rw [if_neg hst, if_neg hst]
      cases o with
      | WON =>
        cases hp : (calculatePayout w.stakeCents w.acceptedPrice).toInt? with
        | none => rfl
        | some p => exact finishSettle_snd_congr _ _ _ _ _ _ _ rfl
      | PUSH => exact finishSettle_snd_congr _ _ _ _ _ _ _ rfl
      | VOID => exact finishSettle_snd_congr _ _ _ _ _ _ _ rfl
      | LOST => rfl

/-- Replacing the lines table wholesale (in particular, any later re-quote)
does not change what any settlement call returns. -/
theorem settle_ignores_lines (db : DB) (L : List Line) (now : ℤ) (wid : String)
    (o : Outcome) (eid : String) :
    (settleWager { db with lines := L } now wid o eid).2
      = (settleWager db now wid o eid).2 := by
  cases db with
  | mk u lg ev mk2 l wg le => exact settle_snd_congr u lg ev mk2 L l wg le now wid o eid

/-! ## Claims -/

/-- Claim C1 counterexample: starting from a database satisfying the
ledger-balance equality, a `placeWager` call without a user id succeeds,
writes a stake-debit entry for the default user, updates no balance, and
leaves the default user's balance different from the sum of their ledger
entries — so the invariant is *not* preserved by every `placeWager` call. -/
theorem place_no_user_breaks_invariant :
    dbNoUser.balancedLedger
    ∧ (∃ w, (placeWager dbNoUser 0
        { lineId := "L1", stakeCents := 500, userId := none } "W1" "LE1").2 = Except.ok w)
    ∧ ¬ (placeWager dbNoUser 0
        { lineId := "L1", stakeCents := 500, userId := none } "W1" "LE1").1.balancedLedger := by
  have h := place_success_eq dbNoUser 0
    { lineId := "L1", stakeCents := 500, userId := none } "W1" "LE1"
    demoLine demoMarket demoEvent (by norm_num) rfl rfl rfl rfl
    (by norm_num [demoEvent]) rfl rfl
  refine ⟨by decide, ⟨_, by rw [h]⟩, ?_⟩
  rw [h]
  decide

/-- Claim C1 (amended): the ledger-balance equality is preserved by every
`settleWager` call (on databases whose wagers carry the validated positive
stakes) and by every `placeWager` call that carries a user id — successful
or failed; the `placeWager` path without a user id is the exception
exhibited by the counterexample. -/
theorem core_ops_preserve_ledger_balance :
    (∀ db now req wagerId entryId uid, req.userId = some uid →
        db.balancedLedger → (placeWager db now req wagerId entryId).1.balancedLedger)
    ∧ (∀ db now wid o eid, (∀ w ∈ db.wagers, 1 ≤ w.stakeCents) →
        db.balancedLedger → (settleWager db now wid o eid).1.balancedLedger) :=
  ⟨fun db now req wagerId entryId uid hu hbal =>
      place_preserves_balanced db now req wagerId entryId uid hu hbal,
    fun db now wid o eid hstakes hbal =>
      settle_preserves_balanced db now wid o eid hstakes hbal⟩

theorem core_ops_preserve_ledger_balance_witness :
    dbBalanced.balancedLedger
    ∧ (placeWager dbBalanced 0 { lineId := "L1", stakeCents := 500, userId := some "U2" }
        "W1" "LE1").1.balancedLedger
    ∧ (settleWager dbPendingWager 0 "W5" Outcome.PUSH "LE2").1.balancedLedger :=
  ⟨by decide,
    core_ops_preserve_ledger_balance.1 dbBalanced 0
      { lineId := "L1", stakeCents := 500, userId := some "U2" } "W1" "LE1" "U2" rfl (by decide),
    core_ops_preserve_ledger_balance.2 dbPendingWager 0 "W5" Outcome.PUSH "LE2"
      (by decide) (by decide)⟩

/-- Claim C2: settlement happens at most once.  (a) Settling a wager whose
status is not `PENDING` fails with `alreadySettled` carrying the existing
terminal status and changes nothing; (b) after a successful settlement a
second call on the same wager fails with `alreadySettled` and changes
nothing, so sequential double settlement applies effects exactly once;
(c) across any sequence of settlement calls, never more than one
payout/refund ledger entry exists for one wager. -/
theorem settlement_at_most_once :
    (∀ db now wid o eid w, db.wagers.find? (fun x => x.id == wid) = some w →
        w.status ≠ WagerStatus.PENDING →
        settleWager db now wid o eid = (db, Except.error (ApiError.alreadySettled w.status)))
    ∧ (∀ db db1 now1 now2 wid o1 o2 eid1 eid2 r,
        settleWager db now1 wid o1 eid1 = (db1, Except.ok r) →
        settleWager db1 now2 wid o2 eid2
          = (db1, Except.error (ApiError.alreadySettled o1.toStatus)))
    ∧ (∀ calls db wid, settlementCount db wid ≤ 1 →
        (∀ w, db.wagers.find? (fun x => x.id == wid) = some w →
          w.status = WagerStatus.PENDING → settlementCount db wid = 0) →
        settlementCount (settleMany db calls) wid ≤ 1) :=
  ⟨fun db now wid o eid w hfind hne => settle_already db now wid o eid w hfind hne,
    fun db db1 now1 now2 wid o1 o2 eid1 eid2 r h =>
      settle_second_call db db1 now1 now2 wid o1 o2 eid1 eid2 r h,
    fun calls db wid h1 h2 => settleMany_once calls db wid h1 h2⟩

theorem settlement_at_most_once_witness :
    settledWagerRow.status ≠ WagerStatus.PENDING
    ∧ settleWager dbSettledWager 0 "W9" Outcome.WON "LE9"
        = (dbSettledWager, Except.error (ApiError.alreadySettled WagerStatus.WON))
    ∧ settlementCount (settleMany dbPendingWager
        [(0, "W5", Outcome.WON, "LE2"), (1, "W5", Outcome.PUSH, "LE3")]) "W5" ≤ 1 :=
  ⟨by decide,
    settlement_at_most_once.1 dbSettledWager 0 "W9" Outcome.WON "LE9" settledWagerRow
      rfl (by decide),
    settlement_at_most_once.2.2 [(0, "W5", Outcome.WON, "LE2"), (1, "W5", Outcome.PUSH, "LE3")]
      dbPendingWager "W5" (by decide) (fun w hf hp => by decide)⟩

/-- Claim C3: for a `PENDING` wager (with the validated positive stake, a
nonzero accepted price, and an existing owner row), `settleWager` sets the
status to the supplied outcome and applies exactly the outcome's ledger
effect: a single payout-credit entry of `+payoutFin stake price` (the
finite value of `calculatePayout`) and the matching balance increase for
`WON`; a single refund-credit entry of `+stake` and the matching balance
increase for `PUSH`/`VOID`; no entry and no balance change for `LOST`. -/
theorem settle_pending_applies_outcome (db : DB) (now : ℤ) (wid : String) (o : Outcome)
    (eid : String) (w : Wager)
    (hfind : db.wagers.find? (fun x => x.id == wid) = some w)
    (hpend : w.status = WagerStatus.PENDING)
    (hs : 1 ≤ w.stakeCents)
    (hprice : w.acceptedPrice ≠ 0)
    (howner : db.users.any (fun u => u.id == w.userId) = true) :
    settleWager db now wid o eid
      = (settledState db w o eid now,
         Except.ok ({ w with status := o.toStatus },
           (settleEntries w o eid now).head?, settleDelta w o))
    ∧ calculatePayout w.stakeCents w.acceptedPrice
        = JSNum.fin ((payoutFin w.stakeCents w.acceptedPrice : ℤ) : ℚ)
    ∧ settleEntries w o eid now
        = (match o with
           | Outcome.WON => [payoutEntryOf { w with status := o.toStatus } eid now
              (payoutFin w.stakeCents w.acceptedPrice)]
           | Outcome.PUSH => [refundEntryOf { w with status := o.toStatus } eid now "pushed"]
           | Outcome.VOID => [refundEntryOf { w with status := o.toStatus } eid now "voided"]
           | Outcome.LOST => [])
    ∧ settleDelta w o
        = (match o with
           | Outcome.WON => payoutFin w.stakeCents w.acceptedPrice
           | Outcome.LOST => 0
           | _ => w.stakeCents)
    ∧ (settledState db w o eid now).wagers = statusUpdate db.wagers w.id o.toStatus
    ∧ (settledState db w o eid now).ledgerEntries = db.ledgerEntries ++ settleEntries w o eid now
    ∧ (settledState db w o eid now).users
        = (if o = Outcome.LOST then db.users
           else db.users.map (fun u => if u.id == w.userId then
              { u with balanceCents := u.balanceCents + settleDelta w o } else u)) := by
  have hfin := calculatePayout_toInt w.stakeCents w.acceptedPrice hprice
  have hppos : 1 ≤ payoutFin w.stakeCents w.acceptedPrice := payoutFin_pos w.stakeCents w.acceptedPrice hs
  refine ⟨settle_success_eq db now wid o eid w hfind hpend (fun _ => howner)
      (fun _ => ⟨payoutFin w.stakeCents w.acceptedPrice, hfin⟩),
    calculatePayout_fin w.stakeCents w.acceptedPrice hprice, ?_, ?_, rfl, rfl, ?_⟩
  · cases o <;> simp [settleEntries, hfin]
  · cases o <;> simp [settleDelta, hfin]
  · cases o with
    | WON =>
      have hδ : settleDelta w Outcome.WON = payoutFin w.stakeCents w.acceptedPrice := by
        simp [settleDelta, hfin]
      rw [show (settledState db w Outcome.WON eid now).users
            = if 0 < settleDelta w Outcome.WON then
                db.users.map (fun u => if u.id == w.userId then
                  { u with balanceCents := u.balanceCents + settleDelta w Outcome.WON } else u)
              else db.users from rfl]
      rw [if_pos (by omega : (0 : ℤ) < settleDelta w Outcome.WON)]
      · simp
    | PUSH =>
      rw [show (settledState db w Outcome.PUSH eid now).users
            = if 0 < settleDelta w Outcome.PUSH then
                db.users.map (fun u => if u.id == w.userId then
                  { u with balanceCents := u.balanceCents + settleDelta w Outcome.PUSH } else u)
              else db.users from rfl]
      rw [if_pos (by simpa [settleDelta] using by omega : (0 : ℤ) < settleDelta w Outcome.PUSH)]
      simp
    | VOID =>
      rw [show (settledState db w Outcome.VOID eid now).users
            = if 0 < settleDelta w Outcome.VOID then
                db.users.map (fun u => if u.id == w.userId then
                  { u with balanceCents := u.balanceCents + settleDelta w Outcome.VOID } else u)
              else db.users from rfl]
      rw [if_pos (by simpa [settleDelta] using by omega : (0 : ℤ) < settleDelta w Outcome.VOID)]
      simp
    | LOST =>
      rw [show (settledState db w Outcome.LOST eid now).users
            = if 0 < settleDelta w Outcome.LOST then
                db.users.map (fun u => if u.id == w.userId then
                  { u with balanceCents := u.balanceCents + settleDelta w Outcome.LOST } else u)
              else db.users from rfl]
      rw [if_neg (by simp [settleDelta])]
      simp

theorem settle_pending_applies_outcome_witness :
    pendingWagerRow.status = WagerStatus.PENDING
    ∧ (1 : ℤ) ≤ pendingWagerRow.stakeCents
    ∧ pendingWagerRow.acceptedPrice ≠ 0
    ∧ settleWager dbPendingWager 0 "W5" Outcome.PUSH "LE2"
        = (settledState dbPendingWager pendingWagerRow Outcome.PUSH "LE2" 0,
           Except.ok ({ pendingWagerRow with status := Outcome.PUSH.toStatus },
             (settleEntries pendingWagerRow Outcome.PUSH "LE2" 0).head?,
             settleDelta pendingWagerRow Outcome.PUSH)) :=
  ⟨by decide, by decide, by decide,
    (settle_pending_applies_outcome dbPendingWager 0 "W5" Outcome.PUSH "LE2" pendingWagerRow
      rfl (by decide) (by decide) (by decide) (by decide)).1⟩

/-- Claim C5: a successful `placeWager` call with a user id performs
exactly the three side effects atomically — the `PENDING` wager row with
price/point copied from the line, one `WAGER_STAKE` entry of `-stakeCents`,
and the balance decrement — and nothing else; a failed call performs none
of them; and settlement never reads the lines table, so later changes to
lines cannot affect an already-placed wager. -/
theorem place_three_effects :
    (∀ db now req wagerId entryId line market event uid,
      req.userId = some uid →
      1 ≤ req.stakeCents →
      db.lines.find? (fun l => l.id == req.lineId) = some line →
      db.markets.find? (fun m => m.id == line.marketId) = some market →
      db.events.find? (fun e => e.id == market.eventId) = some event →
      event.status = EventStatus.SCHEDULED →
      ¬ ((event.startsAt - now : ℤ) : ℚ) / (1000 * 60) < 5 →
      userPrecheck db req = none →
      db.users.any (fun u => u.id == req.userId.getD defaultUserId) = true →
      placeWager db now req wagerId entryId
        = ({ db with
              wagers := db.wagers ++ [placedWagerOf req now wagerId line],
              ledgerEntries := db.ledgerEntries
                ++ [stakeEntryOf req now wagerId entryId line market event],
              users := db.users.map (fun u => if u.id == uid then
                { u with balanceCents := u.balanceCents - req.stakeCents } else u) },
           Except.ok (placedWagerOf req now wagerId line))
        ∧ (placedWagerOf req now wagerId line).status = WagerStatus.PENDING
        ∧ (placedWagerOf req now wagerId line).acceptedPrice = line.price
        ∧ (placedWagerOf req now wagerId line).acceptedPoint = line.point
        ∧ (stakeEntryOf req now wagerId entryId line market event).type = LedgerType.WAGER_STAKE
        ∧ (stakeEntryOf req now wagerId entryId line market event).amountCents = -req.stakeCents)
    ∧ (∀ db now req wagerId entryId e,
        (placeWager db now req wagerId entryId).2 = Except.error e →
        (placeWager db now req wagerId entryId).1 = db)
    ∧ (∀ db L now wid o eid,
        (settleWager { db with lines := L } now wid o eid).2
          = (settleWager db now wid o eid).2) := by
  refine ⟨?_, place_fail_state, settle_ignores_lines⟩
  intro db now req wagerId entryId line market event uid hu hstake hline hmarket hevent
    hsched htime hchk hfk
  have h := place_success_eq db now req wagerId entryId line market event
    hstake hline hmarket hevent hsched htime hchk hfk
  rw [hu] at h
  exact ⟨h, rfl, rfl, rfl, rfl, rfl⟩

theorem place_three_effects_witness :
    scenarioReq.userId = some "U1"
    ∧ placeWager dbScenario 0 scenarioReq "W1" "LE1"
        = ({ dbScenario with
              wagers := dbScenario.wagers ++ [placedWagerOf scenarioReq 0 "W1" demoLine],
              ledgerEntries := dbScenario.ledgerEntries
                ++ [stakeEntryOf scenarioReq 0 "W1" "LE1" demoLine demoMarket demoEvent],
              users := dbScenario.users.map (fun u => if u.id == "U1" then
                { u with balanceCents := u.balanceCents - scenarioReq.stakeCents } else u) },
           Except.ok (placedWagerOf scenarioReq 0 "W1" demoLine)) :=
  ⟨rfl,
    ((place_three_effects.1 dbScenario 0 scenarioReq "W1" "LE1" demoLine demoMarket demoEvent
      "U1" rfl (by norm_num [scenarioReq]) rfl rfl rfl rfl
      (by norm_num [demoEvent]) rfl rfl).1)⟩

/-- Claim C6: the end-to-end scenario.  A user with balance 20000 places a
5000-cent wager at accepted price -110: balance 15000, one stake-debit of
-5000.  Settling it `WON` pays `calculatePayout 5000 (-110) = 9545`:
balance 24545, a second (payout-credit) entry of +9545, status `WON`. -/
theorem end_to_end_scenario :
    dbScenario.users.map (fun u => u.balanceCents) = [20000]
    ∧ (placeWager dbScenario 0 scenarioReq "W1" "LE1").1.users.map (fun u => u.balanceCents)
        = [15000]
    ∧ (placeWager dbScenario 0 scenarioReq "W1" "LE1").1.ledgerEntries.map
        (fun e => (e.type, e.amountCents)) = [(LedgerType.WAGER_STAKE, -5000)]
    ∧ calculatePayout 5000 (-110) = JSNum.fin 9545
    ∧ (settleWager (placeWager dbScenario 0 scenarioReq "W1" "LE1").1
        0 "W1" Outcome.WON "LE2").1.users.map (fun u => u.balanceCents) = [24545]
    ∧ (settleWager (placeWager dbScenario 0 scenarioReq "W1" "LE1").1
        0 "W1" Outcome.WON "LE2").1.ledgerEntries.map (fun e => (e.type, e.amountCents))
        = [(LedgerType.WAGER_STAKE, -5000), (LedgerType.WAGER_PAYOUT, 9545)]
    ∧ (settleWager (placeWager dbScenario 0 scenarioReq "W1" "LE1").1
        0 "W1" Outcome.WON "LE2").1.wagers.map (fun w => w.status) = [WagerStatus.WON] := by
  have hplace := place_success_eq dbScenario 0 scenarioReq "W1" "LE1"
    demoLine demoMarket demoEvent (by norm_num [scenarioReq]) rfl rfl rfl rfl
    (by norm_num [demoEvent]) rfl rfl
  have hcalc : calculatePayout 5000 (-110) = JSNum.fin 9545 := by
    norm_num [calculatePayout, jsDiv, JSNum.add, mathRound, ratFloor_eq, Int.floor_eq_iff]
  have hp : (calculatePayout (placedWagerOf scenarioReq 0 "W1" demoLine).stakeCents
      (placedWagerOf scenarioReq 0 "W1" demoLine).acceptedPrice).toInt? = some 9545 := by
    show (calculatePayout 5000 (-110)).toInt? = some 9545
    rw [hcalc]
    simp [JSNum.toInt?]
  have hfind : (placeWager dbScenario 0 scenarioReq "W1" "LE1").1.wagers.find?
      (fun x => x.id == "W1") = some (placedWagerOf scenarioReq 0 "W1" demoLine) := by
    rw [hplace]
    decide
  have hok : (0 : ℤ) < settleDelta (placedWagerOf scenarioReq 0 "W1" demoLine) Outcome.WON →
      (placeWager dbScenario 0 scenarioReq "W1" "LE1").1.users.any
        (fun u => u.id == (placedWagerOf scenarioReq 0 "W1" demoLine).userId) = true := by
    intro _
    rw [hplace]
    rfl
  have hsettle := settle_success_eq (placeWager dbScenario 0 scenarioReq "W1" "LE1").1
    0 "W1" Outcome.WON "LE2" (placedWagerOf scenarioReq 0 "W1" demoLine)
    hfind rfl hok (fun _ => ⟨9545, hp⟩)
  have hδ : settleDelta (placedWagerOf scenarioReq 0 "W1" demoLine) Outcome.WON = 9545 := by
    simp [settleDelta, hp]
  have hentries : settleEntries (placedWagerOf scenarioReq 0 "W1" demoLine) Outcome.WON "LE2" 0
      = [payoutEntryOf { placedWagerOf scenarioReq 0 "W1" demoLine with
          status := Outcome.WON.toStatus } "LE2" 0 9545] := by
    simp [settleEntries, hp]
  refine ⟨by decide, ?_, ?_, hcalc, ?_, ?_, ?_⟩
  · rw [hplace]
    decide
  · rw [hplace]
    decide
  · rw [hsettle]
    rw [show (settledState (placeWager dbScenario 0 scenarioReq "W1" "LE1").1
          (placedWagerOf scenarioReq 0 "W1" demoLine) Outcome.WON "LE2" 0).users
        = if 0 < settleDelta (placedWagerOf scenarioReq 0 "W1" demoLine) Outcome.WON then
            (placeWager dbScenario 0 scenarioReq "W1" "LE1").1.users.map (fun u =>
              if u.id == (placedWagerOf scenarioReq 0 "W1" demoLine).userId then
                { u with balanceCents := u.balanceCents
                    + settleDelta (placedWagerOf scenarioReq 0 "W1" demoLine) Outcome.WON }
              else u)
          else (placeWager dbScenario 0 scenarioReq "W1" "LE1").1.users from rfl]
    rw [hδ, if_pos (by norm_num), hplace]
    decide
  · rw [hsettle]
    rw [show (settledState (placeWager dbScenario 0 scenarioReq "W1" "LE1").1
          (placedWagerOf scenarioReq 0 "W1" demoLine) Outcome.WON "LE2" 0).ledgerEntries
        = (placeWager dbScenario 0 scenarioReq "W1" "LE1").1.ledgerEntries
            ++ settleEntries (placedWagerOf scenarioReq 0 "W1" demoLine) Outcome.WON "LE2" 0
        from rfl]
    rw [hentries, hplace]
    decide
  · rw [hsettle]
    rw [show (settledState (placeWager dbScenario 0 scenarioReq "W1" "LE1").1
          (placedWagerOf scenarioReq 0 "W1" demoLine) Outcome.WON "LE2" 0).wagers
        = statusUpdate (placeWager dbScenario 0 scenarioReq "W1" "LE1").1.wagers
            (placedWagerOf scenarioReq 0 "W1" demoLine).id Outcome.WON.toStatus from rfl]
    rw [hplace]
    decide

/-- Claim C7 counterexample: an event starting *exactly* 5 minutes after
the moment of acceptance is not "more than" 5 minutes in the future, yet
`placeWager` succeeds (the code tests `minutesUntilStart < 5`), so the
claim's strict-buffer reading is false on the boundary. -/
theorem place_exactly_five_minutes_succeeds :
    boundaryEvent.startsAt - 0 = 5 * 60 * 1000
    ∧ ¬ boundaryEvent.startsAt - 0 > 5 * 60 * 1000
    ∧ (∃ w, (placeWager dbBoundary 0 boundaryReq "W1" "LE1").2 = Except.ok w)
    ∧ (placeWager dbBoundary 0 boundaryReq "W1" "LE1").2
        ≠ Except.error ApiError.bettingClosed := by
  have h := place_success_eq dbBoundary 0 boundaryReq "W1" "LE1"
    boundaryLine boundaryMarket boundaryEvent (by norm_num [boundaryReq]) rfl rfl rfl rfl
    (by norm_num [boundaryEvent]) rfl rfl
  refine ⟨by decide, by decide, ⟨_, by rw [h]⟩, by rw [h]; simp⟩

/-- Claim C7 (amended): with the line found and its event `SCHEDULED` (and
a valid stake), `placeWager` fails with `BettingClosed` exactly when the
event starts in *strictly less than* 5 minutes — an at-least-5-minutes
buffer, not a strictly-more-than one; in particular a 4-minutes-out event
is rejected and a 6-minutes-out event is accepted when the other
preconditions hold. -/
theorem place_five_minute_buffer :
    (∀ db now req wagerId entryId line market event,
      1 ≤ req.stakeCents →
      db.lines.find? (fun l => l.id == req.lineId) = some line →
      db.markets.find? (fun m => m.id == line.marketId) = some market →
      db.events.find? (fun e => e.id == market.eventId) = some event →
      event.status = EventStatus.SCHEDULED →
      ((placeWager db now req wagerId entryId).2 = Except.error ApiError.bettingClosed
        ↔ ((event.startsAt - now : ℤ) : ℚ) / (1000 * 60) < 5))
    ∧ (placeWager db4min 0 req4 "W1" "LE1").2 = Except.error ApiError.bettingClosed
    ∧ (∃ w, (placeWager db6min 0 req6 "W1" "LE1").2 = Except.ok w) := by
  refine ⟨place_bettingClosed_iff, ?_, ?_⟩
  · exact (place_bettingClosed_iff db4min 0 req4 "W1" "LE1" line4 market4 event4
      (by norm_num [req4]) rfl rfl rfl rfl).mpr (by norm_num [event4])
  · have h := place_success_eq db6min 0 req6 "W1" "LE1" line6 market6 event6
      (by norm_num [req6]) rfl rfl rfl rfl (by norm_num [event6]) rfl rfl
    exact ⟨_, by rw [h]⟩

theorem place_five_minute_buffer_witness :
    (1 : ℤ) ≤ req4.stakeCents
    ∧ event4.status = EventStatus.SCHEDULED
    ∧ ((placeWager db4min 0 req4 "W2" "LE2").2 = Except.error ApiError.bettingClosed
        ↔ ((event4.startsAt - 0 : ℤ) : ℚ) / (1000 * 60) < 5) :=
  ⟨by decide, by decide,
    place_five_minute_buffer.1 db4min 0 req4 "W2" "LE2" line4 market4 event4
      (by norm_num [req4]) rfl rfl rfl rfl⟩

/-- Claim C9: a `placeWager` call without a user id (no header, none in
the body) performs no user-existence or balance check — the only
user-related requirement is the foreign key that the default user row
exists — and succeeds, attributing the wager and the `-stakeCents`
stake-debit entry to the fixed default user id while leaving every user's
balance untouched. -/
theorem place_without_userId (db : DB) (now : ℤ) (req : CreateWagerRequest)
    (wagerId entryId : String) (line : Line) (market : Market) (event : Event)
    (hnone : req.userId = none)
    (hstake : 1 ≤ req.stakeCents)
    (hline : db.lines.find? (fun l => l.id == req.lineId) = some line)
    (hmarket : db.markets.find? (fun m => m.id == line.marketId) = some market)
    (hevent : db.events.find? (fun e => e.id == market.eventId) = some event)
    (hsched : event.status = EventStatus.SCHEDULED)
    (htime : ¬ ((event.startsAt - now : ℤ) : ℚ) / (1000 * 60) < 5)
    (hfk : db.users.any (fun u => u.id == defaultUserId) = true) :
    placeWager db now req wagerId entryId
      = ({ db with
            wagers := db.wagers ++ [placedWagerOf req now wagerId line],
            ledgerEntries := db.ledgerEntries
              ++ [stakeEntryOf req now wagerId entryId line market event] },
         Except.ok (placedWagerOf req now wagerId line))
    ∧ (placedWagerOf req now wagerId line).userId = defaultUserId
    ∧ (stakeEntryOf req now wagerId entryId line market event).userId = defaultUserId
    ∧ (stakeEntryOf req now wagerId entryId line market event).amountCents = -req.stakeCents
    ∧ (placeWager db now req wagerId entryId).1.users = db.users := by
  have hchk : userPrecheck db req = none := by
    unfold userPrecheck
    rw [hnone]
  have h := place_success_eq db now req wagerId entryId line market event
    hstake hline hmarket hevent hsched htime hchk (by rw [hnone]; exact hfk)
  rw [hnone] at h
  refine ⟨h, by simp [placedWagerOf, hnone], by simp [stakeEntryOf, hnone], rfl, ?_⟩
  rw [h]

theorem place_without_userId_witness :
    defaultUserRow.balanceCents = 0
    ∧ (1 : ℤ) ≤ 500
    ∧ (placeWager dbNoUser 0 { lineId := "L1", stakeCents := 500, userId := none }
        "W1" "LE1").1.users = dbNoUser.users :=
  ⟨by decide, by decide,
    (place_without_userId dbNoUser 0 { lineId := "L1", stakeCents := 500, userId := none }
      "W1" "LE1" demoLine demoMarket demoEvent rfl (by norm_num) rfl rfl rfl rfl
      (by norm_num [demoEvent]) rfl).2.2.2.2⟩

/-- Claim C10: creating a user stores the supplied `balanceCents`
(defaulting to 10000 when omitted) and writes no ledger entry, so a user
created with a nonzero initial balance immediately violates the
ledger-balance equality. -/
theorem create_user_no_ledger_entry (db : DB) (req : CreateUserRequest)
    (newId newEmail : String)
    (hname1 : 1 ≤ req.displayName.length)
    (hname2 : req.displayName.length ≤ 100)
    (hbal : ∀ b, req.balanceCents = some b → 0 ≤ b)
    (hemail : db.users.any (fun u => u.email == newEmail) = false)
    (hfresh : db.ledgerEntries.filter (fun e => e.userId == newId) = []) :
    ∃ u, createUser db req newId newEmail
        = ({ db with users := db.users ++ [u] }, Except.ok u)
      ∧ u.id = newId
      ∧ u.balanceCents = req.balanceCents.getD 10000
      ∧ ({ db with users := db.users ++ [u] } : DB).ledgerEntries = db.ledgerEntries
      ∧ (req.balanceCents.getD 10000 ≠ 0 →
          u.balanceCents ≠ ({ db with users := db.users ++ [u] } : DB).ledgerSum u.id) := by
  have hsum : sumFor db.ledgerEntries newId = 0 := by
    unfold sumFor
    rw [hfresh]
    rfl
  have hbcond : ¬ (match req.balanceCents with
      | some b => decide (b < 0) | none => false) = true := by
    cases hb : req.balanceCents with
    | none => simp
    | some b =>
      have hb0 := hbal b hb
      simp only [decide_eq_true_eq]
      omega
  refine ⟨User.mk newId newEmail req.displayName (req.balanceCents.getD 10000),
    ?_, rfl, rfl, rfl, ?_⟩
  · unfold createUser
    rw [if_neg (by omega), if_neg (by omega), if_neg hbcond, if_neg (by simp [hemail])]
  · intro hnz
    show req.balanceCents.getD 10000
        ≠ DB.ledgerSum { db with users := db.users
            ++ [User.mk newId newEmail req.displayName (req.balanceCents.getD 10000)] } newId
    unfold DB.ledgerSum
    rw [show ({ db with users := db.users
        ++ [User.mk newId newEmail req.displayName (req.balanceCents.getD 10000)] } : DB).ledgerEntries
      = db.ledgerEntries from rfl]
    rw [hsum]
    exact hnz

theorem create_user_no_ledger_entry_witness :
    (({ displayName := "Carol", balanceCents := some 5000 } : CreateUserRequest).balanceCents.getD
        10000 ≠ 0)
    ∧ ∃ u, createUser dbNoUser { displayName := "Carol", balanceCents := some 5000 }
          "U7" "carol@example.com"
        = ({ dbNoUser with users := dbNoUser.users ++ [u] }, Except.ok u)
      ∧ u.id = "U7"
      ∧ u.balanceCents = (({ displayName := "Carol", balanceCents := some 5000 } :
          CreateUserRequest).balanceCents.getD 10000)
      ∧ ({ dbNoUser with users := dbNoUser.users ++ [u] } : DB).ledgerEntries
          = dbNoUser.ledgerEntries
      ∧ ((({ displayName := "Carol", balanceCents := some 5000 } :
            CreateUserRequest).balanceCents.getD 10000) ≠ 0 →
          u.balanceCents ≠ ({ dbNoUser with users := dbNoUser.users ++ [u] } : DB).ledgerSum u.id) :=
  ⟨by decide,
    create_user_no_ledger_entry dbNoUser { displayName := "Carol", balanceCents := some 5000 }
      "U7" "carol@example.com" (by decide) (by decide)
      (fun b hb => by cases hb; decide) (by decide) (by decide)⟩

end SportsBetting
